import Mathlib

/-!
Verification of the authenticating reverse proxy in models/auth-proxy.py.

The development embeds the proxy's request path as executable Lean
functions: bearer-token verification, response classification
(stream / buffered JSON / buffered text), the reasoning filter applied to
buffered chat-completion JSON bodies, and the JSON re-serialization the
response layer performs.  Theorems at the end settle the behavioural
claims about this code.
-/

/-- JSON values as produced by the Python json decoder: objects are
ordered association lists with unique keys (dict semantics). -/
inductive JsonValue where
  | null : JsonValue
  | bool (b : Bool) : JsonValue
  | num (n : Int) : JsonValue
  | str (s : String) : JsonValue
  | arr (elems : List JsonValue) : JsonValue
  | obj (fields : List (String × JsonValue)) : JsonValue

/-- Dictionary lookup: value at the first matching key. -/
def lookupField : List (String × JsonValue) → String → Option JsonValue
  | [], _ => none
  | (k, v) :: rest, key => if k = key then some v else lookupField rest key

/-- In-place update of the value stored at a key, keeping insertion order
(Python dict item assignment for a key already present). -/
def setField : List (String × JsonValue) → String → JsonValue → List (String × JsonValue)
  | [], _, _ => []
  | (k, v0) :: rest, key, v =>
      if k = key then (key, v) :: setField rest key v
      else (k, v0) :: setField rest key v

/-- Key deletion (Python del d[key]; for the duplicate-free lists coming
from the json decoder this removes exactly the one entry). -/
def removeKey : List (String × JsonValue) → String → List (String × JsonValue)
  | [], _ => []
  | (k, v) :: rest, key =>
      if k = key then removeKey rest key else (k, v) :: removeKey rest key

/-- Boolean test that a list of characters is a prefix of another. -/
def listIsPre : List Char → List Char → Bool
  | [], _ => true
  | _ :: _, [] => false
  | a :: as, b :: bs => a == b && listIsPre as bs

/-- Boolean substring containment (Python operator in on str). -/
def hasInfixL (needle : List Char) : List Char → Bool
  | [] => listIsPre needle []
  | c :: rest => listIsPre needle (c :: rest) || hasInfixL needle rest

/-- Python s.startswith(p). -/
def strStartsWith (s p : String) : Bool := listIsPre p.data s.data

/-- Python p in s (substring containment). -/
def strContains (s p : String) : Bool := hasInfixL p.data s.data

/-- Python s[n:] on a str. -/
def pyDrop (s : String) (n : Nat) : String := String.mk (s.data.drop n)

/-- verify_api_key from models/auth-proxy.py.  The credential set
valid_keys is modelled as the list of its elements; the Authorization
header is none when absent (request.headers.get with default ""). -/
def verify_api_key (validKeys : List String) (authHeader : Option String) : Bool :=
  if validKeys.isEmpty then
    true
  else
    let h := authHeader.getD ""
    if strStartsWith h "Bearer " then validKeys.contains (pyDrop h 7)
    else false

/-- The characters matched by the regex class backslash-s and stripped by
str.strip (ASCII whitespace; the claims only involve these). -/
def isPySpace (c : Char) : Bool :=
  c == ' ' || c == '\t' || c == '\n' || c == '\r' ||
    c == Char.ofNat 11 || c == Char.ofNat 12

/-- Python str.strip(): drop whitespace from both ends. -/
def pyStrip (l : List Char) : List Char :=
  ((l.dropWhile isPySpace).reverse.dropWhile isPySpace).reverse

/-- The literal opening tag of the think-block pattern. -/
def openTagL : List Char := ['<', 't', 'h', 'i', 'n', 'k', '>']

/-- The literal closing tag of the think-block pattern. -/
def closeTagL : List Char := ['<', '/', 't', 'h', 'i', 'n', 'k', '>']

/-- Scan for the first occurrence of the closing tag and return the
characters after it; none when there is no occurrence.  This is how the
non-greedy dot-star in the pattern resolves: it stops at the first
closing tag. -/
def findClose : List Char → Option (List Char)
  | [] => none
  | c :: cs =>
      if listIsPre closeTagL (c :: cs) then some ((c :: cs).drop closeTagL.length)
      else findClose cs

/-- Fuel-indexed worker for the regex substitution
re.sub of the pattern open tag, non-greedy dot-star (DOTALL), close tag,
backslash-s-star, replaced by the empty string: scan left to right; at
each position try to match the open tag, the first following close tag
and the trailing whitespace; on a match drop it and continue after it,
otherwise emit one character and continue.  The fuel only serves
structural recursion and never runs out when it starts at the input
length. -/
def stripThinkGo : Nat → List Char → List Char
  | _, [] => []
  | 0, l => l
  | fuel + 1, c :: cs =>
      if listIsPre openTagL (c :: cs) then
        match findClose ((c :: cs).drop openTagL.length) with
        | some rest => stripThinkGo fuel (rest.dropWhile isPySpace)
        | none => c :: stripThinkGo fuel cs
      else c :: stripThinkGo fuel cs

/-- The regex substitution over a character list. -/
def stripThink (l : List Char) : List Char := stripThinkGo l.length l

/-- The content transformation applied by the proxy:
re.sub of think-blocks (with trailing whitespace), then str.strip. -/
def filterContentStr (s : String) : String :=
  String.mk (pyStrip (stripThink s.data))

/-- The two filtering steps applied to one message dict:
delete the reasoning key if present, then rewrite a string content
field through the think-block substitution and strip. -/
def filterMessageObj (m : List (String × JsonValue)) : List (String × JsonValue) :=
  let m1 := removeKey m "reasoning"
  match lookupField m1 "content" with
  | some (JsonValue.str s) => setField m1 "content" (JsonValue.str (filterContentStr s))
  | _ => m1

/-- One iteration of the loop over choices: only a choice that is an
object holding a message object is touched, and only its message field
changes. -/
def filterChoice (c : JsonValue) : JsonValue :=
  match c with
  | JsonValue.obj fields =>
      match lookupField fields "message" with
      | some (JsonValue.obj m) =>
          JsonValue.obj (setField fields "message" (JsonValue.obj (filterMessageObj m)))
      | _ => c
  | _ => c

/-- The reasoning filter over a decoded JSON body: applied only when the
policy flag is set, the body is an object, and its choices value is a
sequence (when the choices value is some other dict or string the loop
iterates over keys or characters, none of which is a dict, and changes
nothing; the claims all concern a sequence). -/
def filterResponse (filterReasoning : Bool) (j : JsonValue) : JsonValue :=
  if filterReasoning then
    match j with
    | JsonValue.obj fields =>
        match lookupField fields "choices" with
        | some (JsonValue.arr cs) =>
            JsonValue.obj (setField fields "choices" (JsonValue.arr (cs.map filterChoice)))
        | _ => j
    | _ => j
  else j

/-- What the backend produced for one request, as the proxy sees it after
the outbound call: status, the content-type header value, the byte
chunks of the body stream, the text-decoded body, and the result of
JSON-decoding the body (none models a decode failure). -/
structure BackendResponse where
  status : Nat
  contentType : String
  chunks : List (List Nat)
  text : String
  json : Option JsonValue

/-- The generator stream_response inside proxy: yields every chunk of the
backend body stream in order. -/
def stream_response : List (List Nat) → List (List Nat)
  | [] => []
  | c :: rest => c :: stream_response rest

/-- The client-facing result of handling one backend response. -/
inductive ProxyOutcome where
  | streamed (status : Nat) (chunks : List (List Nat)) : ProxyOutcome
  | jsonResponse (status : Nat) (content : JsonValue) : ProxyOutcome
  | uncaughtException (excName : String) : ProxyOutcome

/-- The response-classification and transformation branch of proxy:
an event-stream content type is relayed chunkwise as a StreamingResponse;
a JSON content type is decoded (a decode failure raises
json.decoder.JSONDecodeError, which the surrounding except clause for
httpx.RequestError does not catch), filtered and re-serialized; anything
else is returned as JSONResponse(content = response.text). -/
def handleBackend (filterReasoning : Bool) (r : BackendResponse) : ProxyOutcome :=
  if strContains r.contentType "text/event-stream" then
    ProxyOutcome.streamed r.status (stream_response r.chunks)
  else if strStartsWith r.contentType "application/json" then
    match r.json with
    | some j => ProxyOutcome.jsonResponse r.status (filterResponse filterReasoning j)
    | none => ProxyOutcome.uncaughtException "json.decoder.JSONDecodeError"
  else
    ProxyOutcome.jsonResponse r.status (JsonValue.str r.text)

/-- What the backend call does when it is issued: either the transport
fails (httpx.RequestError) or a response arrives. -/
inductive BackendCall where
  | fails (err : String) : BackendCall
  | returns (r : BackendResponse) : BackendCall

/-- The reply the proxy hands to the client. -/
inductive ProxyResult where
  | unauthorized (status : Nat) (detail : String) (wwwAuthenticate : String) : ProxyResult
  | badGateway (status : Nat) (detail : String) : ProxyResult
  | ok (outcome : ProxyOutcome) : ProxyResult

/-- The request handler proxy from models/auth-proxy.py: the credential
check runs first and a failure raises HTTPException 401 with the
WWW-Authenticate Bearer header before the outbound request exists; only
on success is the backend contacted (first component of the pair records
whether the outbound call was issued), with transport errors mapped to
HTTPException 502. -/
def proxy (validKeys : List String) (filterReasoning : Bool)
    (authHeader : Option String) (backend : BackendCall) : Bool × ProxyResult :=
  if verify_api_key validKeys authHeader then
    match backend with
    | BackendCall.fails err =>
        (true, ProxyResult.badGateway 502 ("Backend service unavailable: " ++ err))
    | BackendCall.returns r =>
        (true, ProxyResult.ok (handleBackend filterReasoning r))
  else
    (false, ProxyResult.unauthorized 401 "Invalid or missing API key" "Bearer")

/-- HTTP status the client sees for each result.  An exception that
escapes the handler is turned by the serving framework into its generic
500 Internal Server Error. -/
def clientStatus : ProxyResult → Nat
  | ProxyResult.unauthorized s _ _ => s
  | ProxyResult.badGateway s _ => s
  | ProxyResult.ok (ProxyOutcome.streamed s _) => s
  | ProxyResult.ok (ProxyOutcome.jsonResponse s _) => s
  | ProxyResult.ok (ProxyOutcome.uncaughtException _) => 500

/-- Lower-case hex digit, used by the JSON string escaper. -/
def hexDigit (n : Nat) : Char :=
  if n < 10 then Char.ofNat ('0'.toNat + n) else Char.ofNat ('a'.toNat + n - 10)

/-- Escaping of one character inside a JSON string literal, as the json
serializer of the response layer performs it (ensure_ascii disabled:
only the quote, the backslash and control characters are escaped). -/
def escChar (c : Char) : List Char :=
  if c = '"' then ['\\', '"']
  else if c = '\\' then ['\\', '\\']
  else if c = '\n' then ['\\', 'n']
  else if c = '\t' then ['\\', 't']
  else if c = '\r' then ['\\', 'r']
  else if c = Char.ofNat 8 then ['\\', 'b']
  else if c = Char.ofNat 12 then ['\\', 'f']
  else if c.toNat < 32 then
    ['\\', 'u', '0', '0', hexDigit (c.toNat / 16), hexDigit (c.toNat % 16)]
  else [c]

/-- JSON string literal serialization: quote, escaped characters, quote. -/
def renderString (s : String) : String :=
  String.mk ('"' :: s.data.foldr (fun c acc => escChar c ++ acc) ['"'])

mutual

/-- Serialization a JSONResponse applies to its content before it goes on
the wire (json.dumps with compact separators): this is the body the
client actually receives for every buffered reply, including the branch
that wraps the backend's plain-text body. -/
def renderJson : JsonValue → String
  | JsonValue.null => "null"
  | JsonValue.bool b => cond b "true" "false"
  | JsonValue.num n => toString n
  | JsonValue.str s => renderString s
  | JsonValue.arr xs => "[" ++ renderArr xs ++ "]"
  | JsonValue.obj fs => "\x7b" ++ renderObjFields fs ++ "\x7d"

/-- Comma-joined serialization of array elements. -/
def renderArr : List JsonValue → String
  | [] => ""
  | [x] => renderJson x
  | x :: y :: rest => renderJson x ++ "," ++ renderArr (y :: rest)

/-- Comma-joined serialization of object entries. -/
def renderObjFields : List (String × JsonValue) → String
  | [] => ""
  | [(k, v)] => renderString k ++ ":" ++ renderJson v
  | (k, v) :: p :: rest =>
      renderString k ++ ":" ++ renderJson v ++ "," ++ renderObjFields (p :: rest)

end

/-- The bytes a buffered reply puts on the wire; a streamed reply has no
buffered body and an escaped exception produces the framework's own
error page instead of proxy output. -/
def wireBody : ProxyOutcome → Option String
  | ProxyOutcome.jsonResponse _ content => some (renderJson content)
  | _ => none

/-- A streaming backend response used to instantiate theorems. -/
def wRespStream : BackendResponse :=
  { status := 200, contentType := "text/event-stream",
    chunks := [[100, 97], [116, 97], [10]], text := "", json := none }

/-- A plain-text backend response used to instantiate theorems. -/
def wRespText : BackendResponse :=
  { status := 200, contentType := "text/plain", chunks := [],
    text := "hello", json := none }

/-- A backend response whose content type promises JSON but whose body
does not parse, used to instantiate theorems. -/
def wRespBadJson : BackendResponse :=
  { status := 200, contentType := "application/json", chunks := [],
    text := "not json", json := none }

/-- The message dict of the chat-completion example. -/
def wMsg : List (String × JsonValue) :=
  [("reasoning", JsonValue.str "secret"),
   ("content", JsonValue.str "<think>hidden</think>Hello")]

/-- The object fields of the chat-completion example body. -/
def wFieldsChat : List (String × JsonValue) :=
  [("id", JsonValue.str "chatcmpl-1"),
   ("choices", JsonValue.arr [JsonValue.obj [("index", JsonValue.num 0),
      ("message", JsonValue.obj wMsg)]]),
   ("model", JsonValue.str "m")]

/-- The choices sequence of the chat-completion example body. -/
def wChoicesChat : List JsonValue :=
  [JsonValue.obj [("index", JsonValue.num 0), ("message", JsonValue.obj wMsg)]]

/-- A chat-completion backend response used to instantiate theorems. -/
def wRespChat : BackendResponse :=
  { status := 200, contentType := "application/json", chunks := [],
    text := "", json := some (JsonValue.obj wFieldsChat) }

theorem stripThinkGo_nil (fuel : Nat) : stripThinkGo fuel [] = [] := by
  cases fuel <;> rfl

theorem findClose_cons (c : Char) (cs : List Char) :
    findClose (c :: cs) =
      if listIsPre closeTagL (c :: cs) then some ((c :: cs).drop closeTagL.length)
      else findClose cs := rfl

theorem length_dropWhile_le (p : Char → Bool) (l : List Char) :
    (l.dropWhile p).length ≤ l.length := by
  induction l with
  | nil => simp
  | cons c cs ih =>
    by_cases h : p c
    · simp only [List.dropWhile, h]
      exact Nat.le_succ_of_le ih
    · simp [List.dropWhile, h]

theorem findClose_length {l r : List Char} (h : findClose l = some r) :
    r.length < l.length := by
  induction l with
  | nil => simp [findClose] at h
  | cons c cs ih =>
    rw [findClose_cons] at h
    by_cases hp : listIsPre closeTagL (c :: cs) = true
    · rw [if_pos hp] at h
      have hr : r = (c :: cs).drop closeTagL.length := (Option.some.inj h).symm
      subst hr
      have h8 : closeTagL.length = 8 := rfl
      rw [List.length_drop, h8, List.length_cons]
      omega
    · rw [if_neg hp] at h
      have := ih h
      simp only [List.length_cons]
      omega

theorem stripThinkGo_irrel : ∀ (f1 f2 : Nat) (l : List Char),
    l.length ≤ f1 → l.length ≤ f2 → stripThinkGo f1 l = stripThinkGo f2 l := by
  intro f1
  induction f1 with
  | zero =>
    intro f2 l h1 _
    have : l = [] := List.length_eq_zero.mp (Nat.le_zero.mp h1)
    subst this
    rw [stripThinkGo_nil, stripThinkGo_nil]
  | succ n ih =>
    intro f2 l h1 h2
    cases l with
    | nil => rw [stripThinkGo_nil, stripThinkGo_nil]
    | cons c cs =>
      cases f2 with
      | zero => simp at h2
      | succ m =>
        simp only [stripThinkGo]
        have hcs1 : cs.length ≤ n := by simp at h1; omega
        have hcs2 : cs.length ≤ m := by simp at h2; omega
        by_cases hp : listIsPre openTagL (c :: cs) = true
        · rw [if_pos hp, if_pos hp]
          cases hf : findClose ((c :: cs).drop openTagL.length) with
          | none => rw [ih m cs hcs1 hcs2]
          | some rest =>
            have hlen : rest.length < ((c :: cs).drop openTagL.length).length :=
              findClose_length hf
            rw [List.length_drop, List.length_cons] at hlen
            have hb : (rest.dropWhile isPySpace).length ≤ rest.length :=
              length_dropWhile_le _ _
            exact ih m (rest.dropWhile isPySpace) (by omega) (by omega)
        · rw [if_neg hp, if_neg hp, ih m cs hcs1 hcs2]

theorem stripThink_cons (c : Char) (cs : List Char) :
    stripThink (c :: cs) =
      if listIsPre openTagL (c :: cs) then
        match findClose ((c :: cs).drop openTagL.length) with
        | some rest => stripThink (rest.dropWhile isPySpace)
        | none => c :: stripThink cs
      else c :: stripThink cs := by
  show stripThinkGo (c :: cs).length (c :: cs) = _
  rw [List.length_cons]
  simp only [stripThinkGo]
  by_cases hp : listIsPre openTagL (c :: cs) = true
  · rw [if_pos hp, if_pos hp]
    cases hf : findClose ((c :: cs).drop openTagL.length) with
    | none => rfl
    | some rest =>
      have hlen : rest.length < ((c :: cs).drop openTagL.length).length :=
        findClose_length hf
      rw [List.length_drop, List.length_cons] at hlen
      have hb : (rest.dropWhile isPySpace).length ≤ rest.length :=
        length_dropWhile_le _ _
      exact stripThinkGo_irrel _ _ _ (by omega) (le_refl _)
  · rw [if_neg hp, if_neg hp]
    rfl

theorem listIsPre_self_append (p t : List Char) : listIsPre p (p ++ t) = true := by
  induction p with
  | nil => rfl
  | cons a as ih => simp [listIsPre, ih]

theorem listIsPre_iff (p l : List Char) :
    listIsPre p l = true ↔ ∃ t, l = p ++ t := by
  induction p generalizing l with
  | nil =>
    simp [listIsPre]
  | cons a as ih =>
    cases l with
    | nil => simp [listIsPre]
    | cons b bs =>
      simp only [listIsPre, Bool.and_eq_true, beq_iff_eq, ih, List.cons_append,
        List.cons.injEq]
      constructor
      · rintro ⟨hab, t, ht⟩
        exact ⟨t, hab.symm, ht⟩
      · rintro ⟨t, hab, ht⟩
        exact ⟨hab.symm, t, ht⟩

theorem lookupField_setField_self (l : List (String × JsonValue)) (k : String)
    (v : JsonValue) :
    lookupField (setField l k v) k = (lookupField l k).map fun _ => v := by
  induction l with
  | nil => rfl
  | cons p rest ih =>
    obtain ⟨k0, v0⟩ := p
    by_cases h : k0 = k
    · subst h
      simp [setField, lookupField]
    · simp [setField, lookupField, h, ih]

theorem lookupField_setField_ne (l : List (String × JsonValue)) (key : String)
    (v : JsonValue) (k : String) (h : k ≠ key) :
    lookupField (setField l key v) k = lookupField l k := by
  induction l with
  | nil => rfl
  | cons p rest ih =>
    obtain ⟨k0, v0⟩ := p
    by_cases h0 : k0 = key
    · subst h0
      have h' : ¬ k0 = k := fun he => h he.symm
      simp [setField, lookupField, h', ih]
    · by_cases he : k0 = k
      · subst he
        simp [setField, lookupField, h0]
      · simp [setField, lookupField, h0, he, ih]

theorem setField_keys (l : List (String × JsonValue)) (key : String) (v : JsonValue) :
    (setField l key v).map Prod.fst = l.map Prod.fst := by
  induction l with
  | nil => rfl
  | cons p rest ih =>
    obtain ⟨k0, v0⟩ := p
    by_cases h0 : k0 = key
    · subst h0
      simp [setField, ih]
    · simp [setField, h0, ih]

theorem lookupField_removeKey_self (l : List (String × JsonValue)) (key : String) :
    lookupField (removeKey l key) key = none := by
  induction l with
  | nil => rfl
  | cons p rest ih =>
    obtain ⟨k0, v0⟩ := p
    by_cases h0 : k0 = key
    · simp [removeKey, h0, ih]
    · simp [removeKey, lookupField, h0, ih]

theorem lookupField_removeKey_ne (l : List (String × JsonValue)) (key k : String)
    (h : k ≠ key) :
    lookupField (removeKey l key) k = lookupField l k := by
  induction l with
  | nil => rfl
  | cons p rest ih =>
    obtain ⟨k0, v0⟩ := p
    by_cases h0 : k0 = key
    · subst h0
      have h' : ¬ k0 = k := fun he => h he.symm
      simp [removeKey, lookupField, h', ih]
    · by_cases he : k0 = k
      · subst he
        simp [removeKey, lookupField, h0]
      · simp [removeKey, lookupField, h0, he, ih]

theorem dropWhile_append_all (p : Char → Bool) (ws rest : List Char)
    (h : ws.all p = true) :
    (ws ++ rest).dropWhile p = rest.dropWhile p := by
  induction ws with
  | nil => rfl
  | cons a as ih =>
    simp only [List.all_cons, Bool.and_eq_true] at h
    simp only [List.cons_append, List.dropWhile, h.1]
    exact ih h.2

theorem dropWhile_head_not (p : Char → Bool) (l : List Char)
    (h : l.head?.all (fun c => !p c) = true) :
    l.dropWhile p = l := by
  cases l with
  | nil => rfl
  | cons a as =>
    simp only [List.head?, Option.all_some, Bool.not_eq_true'] at h
    simp [List.dropWhile, h]

theorem stripThink_copies (pre t : List Char)
    (h : ∀ b ∈ pre.tails, b ≠ [] → listIsPre openTagL (b ++ t) = false) :
    stripThink (pre ++ t) = pre ++ stripThink t := by
  induction pre with
  | nil => simp
  | cons c p ih =>
    have hmem : (c :: p) ∈ (c :: p).tails := by
      rw [List.tails_cons]
      exact List.mem_cons_self _ _
    have hc : listIsPre openTagL ((c :: p) ++ t) = false :=
      h (c :: p) hmem (by simp)
    rw [List.cons_append] at hc ⊢
    rw [stripThink_cons, if_neg (by simp [hc])]
    have ih' := ih fun b hb hne => h b (by rw [List.tails_cons]; exact List.mem_cons_of_mem _ hb) hne
    rw [ih']
    rfl

theorem findClose_through (inner t : List Char)
    (h : ∀ b ∈ inner.tails, b ≠ [] → listIsPre closeTagL (b ++ (closeTagL ++ t)) = false) :
    findClose (inner ++ (closeTagL ++ t)) = some t := by
  induction inner with
  | nil =>
    rw [List.nil_append,
      show closeTagL ++ t = '<' :: (['/', 't', 'h', 'i', 'n', 'k', '>'] ++ t) from rfl,
      findClose_cons,
      ← show closeTagL ++ t = '<' :: (['/', 't', 'h', 'i', 'n', 'k', '>'] ++ t) from rfl,
      if_pos (listIsPre_self_append closeTagL t), List.drop_left]
  | cons c p ih =>
    have hmem : (c :: p) ∈ (c :: p).tails := by
      rw [List.tails_cons]
      exact List.mem_cons_self _ _
    have hc : listIsPre closeTagL ((c :: p) ++ (closeTagL ++ t)) = false :=
      h (c :: p) hmem (by simp)
    rw [List.cons_append] at hc ⊢
    rw [findClose_cons, if_neg (by simp [hc])]
    exact ih fun b hb hne => h b (by rw [List.tails_cons]; exact List.mem_cons_of_mem _ hb) hne

theorem stripThink_open (X rest : List Char) (hf : findClose X = some rest) :
    stripThink (openTagL ++ X) = stripThink (rest.dropWhile isPySpace) := by
  rw [show openTagL ++ X = '<' :: (['t', 'h', 'i', 'n', 'k', '>'] ++ X) from rfl,
    stripThink_cons,
    ← show openTagL ++ X = '<' :: (['t', 'h', 'i', 'n', 'k', '>'] ++ X) from rfl,
    if_pos (listIsPre_self_append openTagL X),
    show (openTagL ++ X).drop openTagL.length = X from List.drop_left _ _, hf]

theorem stripThink_id_of_no_open (s : List Char)
    (h : ∀ b ∈ s.tails, b ≠ [] → listIsPre openTagL b = false) :
    stripThink s = s := by
  induction s with
  | nil => rfl
  | cons c cs ih =>
    have hmem : (c :: cs) ∈ (c :: cs).tails := by
      rw [List.tails_cons]
      exact List.mem_cons_self _ _
    have hc : listIsPre openTagL (c :: cs) = false := h (c :: cs) hmem (by simp)
    rw [stripThink_cons, if_neg (by simp [hc])]
    have ih' := ih fun b hb hne => h b (by rw [List.tails_cons]; exact List.mem_cons_of_mem _ hb) hne
    rw [ih']

theorem contains_iff_mem (l : List String) (s : String) :
    l.contains s = true ↔ s ∈ l := List.elem_iff

theorem string_append_mk (s : String) (t : List Char) :
    s ++ String.mk t = String.mk (s.data ++ t) := by
  obtain ⟨d⟩ := s
  rfl

theorem verify_true_iff (validKeys : List String) (hne : validKeys ≠ [])
    (ah : Option String) :
    verify_api_key validKeys ah = true ↔
      ∃ t, ah = some ("Bearer " ++ t) ∧ t ∈ validKeys := by
  obtain ⟨k0, ks, rfl⟩ : ∃ k0 ks, validKeys = k0 :: ks := by
    cases validKeys with
    | nil => exact absurd rfl hne
    | cons a as => exact ⟨a, as, rfl⟩
  cases ah with
  | none =>
    constructor
    · intro hc
      exact Bool.noConfusion (show false = true from hc)
    · rintro ⟨t, ht, _⟩
      exact Option.noConfusion ht
  | some a =>
    show (if strStartsWith a "Bearer " then (k0 :: ks).contains (pyDrop a 7) else false) = true ↔ _
    by_cases hsw : strStartsWith a "Bearer " = true
    · rw [if_pos hsw]
      obtain ⟨t, ht⟩ := (listIsPre_iff "Bearer ".data a.data).mp hsw
      have hdrop : pyDrop a 7 = String.mk t := by
        unfold pyDrop
        rw [ht]
        have h7 : "Bearer ".data.length = 7 := rfl
        rw [← h7, List.drop_left]
      have ha : a = "Bearer " ++ String.mk t := by
        rw [string_append_mk]
        show String.mk a.data = String.mk ("Bearer ".data ++ t)
        rw [ht]
      constructor
      · intro hc
        refine ⟨String.mk t, by rw [ha], ?_⟩
        rw [hdrop] at hc
        exact (contains_iff_mem _ _).mp hc
      · rintro ⟨t2, ht2, hmem⟩
        injection ht2 with ha2
        have hdata : "Bearer ".data ++ t = "Bearer ".data ++ t2.data := by
          have h1 : a.data = ("Bearer " ++ t2).data := by rw [ha2]
          rw [String.data_append] at h1
          rw [← ht]
          exact h1
        have h2 : t = t2.data := List.append_cancel_left hdata
        have hd2 : pyDrop a 7 = t2 := by
          rw [hdrop, h2]
        rw [hd2]
        exact (contains_iff_mem _ _).mpr hmem
    · rw [if_neg hsw]
      simp only [Bool.false_eq_true, false_iff]
      rintro ⟨t, ht, _⟩
      injection ht with ha
      apply hsw
      rw [ha]
      unfold strStartsWith
      rw [String.data_append]
      exact listIsPre_self_append _ _

theorem filterMessageObj_no_reasoning (m : List (String × JsonValue)) :
    lookupField (filterMessageObj m) "reasoning" = none := by
  simp only [filterMessageObj]
  split
  · rw [lookupField_setField_ne _ _ _ _ (by decide : ("reasoning" : String) ≠ "content")]
    exact lookupField_removeKey_self m "reasoning"
  · exact lookupField_removeKey_self m "reasoning"

theorem filterMessageObj_frame (m : List (String × JsonValue)) (k : String)
    (h1 : k ≠ "reasoning") (h2 : k ≠ "content") :
    lookupField (filterMessageObj m) k = lookupField m k := by
  simp only [filterMessageObj]
  split
  · rw [lookupField_setField_ne _ _ _ _ h2, lookupField_removeKey_ne _ _ _ h1]
  · rw [lookupField_removeKey_ne _ _ _ h1]

theorem stream_response_id (l : List (List Nat)) : stream_response l = l := by
  induction l with
  | nil => rfl
  | cons c rest ih =>
    show c :: stream_response rest = c :: rest
    rw [ih]

theorem strStartsWith_bearer_append (t : String) :
    strStartsWith ("Bearer " ++ t) "Bearer " = true := by
  unfold strStartsWith
  rw [String.data_append]
  exact listIsPre_self_append _ _

/-- C1: for every inbound request that fails authentication against a
non-empty credential set (Authorization header missing, malformed, or
carrying a token outside the set), the proxy replies with status 401
carrying a WWW-Authenticate Bearer header, and the outbound backend
request is never issued. -/
theorem C1_auth_failure_short_circuits (validKeys : List String) (fr : Bool)
    (ah : Option String) (b : BackendCall) (hne : validKeys ≠ [])
    (hfail : ¬ ∃ t, ah = some ("Bearer " ++ t) ∧ t ∈ validKeys) :
    proxy validKeys fr ah b =
      (false, ProxyResult.unauthorized 401 "Invalid or missing API key" "Bearer") := by
  have hv : verify_api_key validKeys ah = false := by
    cases hvv : verify_api_key validKeys ah with
    | false => rfl
    | true => exact absurd ((verify_true_iff validKeys hne ah).mp hvv) hfail
  simp [proxy, hv]

/-- Witness for C1 at a concrete request with no Authorization header. -/
theorem C1_witness :
    (["secret-key"] : List String) ≠ [] ∧
      proxy ["secret-key"] false none (BackendCall.returns wRespText) =
        (false, ProxyResult.unauthorized 401 "Invalid or missing API key" "Bearer") :=
  ⟨by decide, C1_auth_failure_short_circuits ["secret-key"] false none
      (BackendCall.returns wRespText) (by decide) (by simp)⟩

/-- C2 counterexample: the credential set may contain the empty string
(a configured api_keys list holding the empty string is truthy and is
copied into the set wholesale), and then the header consisting of the
scheme prefix with the empty token after it authenticates successfully,
contradicting the claim that an empty token always fails. -/
theorem C2_counterexample :
    ([""] : List String) ≠ [] ∧ "Bearer " ++ "" = "Bearer " ∧
      verify_api_key [""] (some "Bearer ") = true :=
  ⟨by decide, by decide, by decide⟩

/-- C2 amended: with a non-empty credential set, authentication succeeds
exactly when the header is present, starts with the scheme prefix, and
the exact substring after the prefix is a member of the set; a missing
header or wrong scheme always fails, and an empty token fails provided
the empty string is not itself a member of the credential set. -/
theorem C2_amended_auth_iff (validKeys : List String) (hne : validKeys ≠ [])
    (ah : Option String) :
    (verify_api_key validKeys ah = true ↔
        ∃ t, ah = some ("Bearer " ++ t) ∧ t ∈ validKeys) ∧
      verify_api_key validKeys none = false ∧
      (∀ s, strStartsWith s "Bearer " = false → verify_api_key validKeys (some s) = false) ∧
      ("" ∉ validKeys → verify_api_key validKeys (some "Bearer ") = false) := by
  refine ⟨verify_true_iff validKeys hne ah, ?_, ?_, ?_⟩
  · cases hvv : verify_api_key validKeys none with
    | false => rfl
    | true =>
      obtain ⟨t, ht, _⟩ := (verify_true_iff validKeys hne none).mp hvv
      exact Option.noConfusion ht
  · intro s hsw
    cases hvv : verify_api_key validKeys (some s) with
    | false => rfl
    | true =>
      obtain ⟨t, ht, _⟩ := (verify_true_iff validKeys hne (some s)).mp hvv
      injection ht with ha
      rw [ha, strStartsWith_bearer_append] at hsw
      exact Bool.noConfusion hsw
  · intro hno
    cases hvv : verify_api_key validKeys (some "Bearer ") with
    | false => rfl
    | true =>
      obtain ⟨t, ht, hmem⟩ := (verify_true_iff validKeys hne (some "Bearer ")).mp hvv
      injection ht with ha
      have hd : "Bearer ".data = "Bearer ".data ++ t.data := by
        have := congrArg String.data ha
        rw [String.data_append] at this
        exact this
      have hnil : t.data = [] := by
        have hd2 : "Bearer ".data ++ ([] : List Char) = "Bearer ".data ++ t.data := by
          rw [List.append_nil]
          exact hd
        exact (List.append_cancel_left hd2).symm
      have ht0 : t = "" := by
        show String.mk t.data = String.mk []
        rw [hnil]
      rw [ht0] at hmem
      exact absurd hmem hno

/-- Witness for C2 at the concrete credential set of two keys. -/
theorem C2_witness :
    (["k1", "k2"] : List String) ≠ [] ∧
      ((verify_api_key ["k1", "k2"] (some "Bearer k1") = true ↔
          ∃ t, (some "Bearer k1" : Option String) = some ("Bearer " ++ t) ∧
            t ∈ ["k1", "k2"]) ∧
        verify_api_key ["k1", "k2"] none = false ∧
        (∀ s, strStartsWith s "Bearer " = false →
          verify_api_key ["k1", "k2"] (some s) = false) ∧
        ("" ∉ ["k1", "k2"] → verify_api_key ["k1", "k2"] (some "Bearer ") = false)) :=
  ⟨by decide, C2_amended_auth_iff ["k1", "k2"] (by decide) (some "Bearer k1")⟩

/-- C3: with an empty credential set, authentication returns true
unconditionally; every request is forwarded to the backend and the proxy
itself never answers 401, whatever the Authorization header holds. -/
theorem C3_empty_set_allows_all (fr : Bool) (ah : Option String) (b : BackendCall) :
    verify_api_key [] ah = true ∧ (proxy [] fr ah b).1 = true ∧
      ∀ s d w, (proxy [] fr ah b).2 ≠ ProxyResult.unauthorized s d w := by
  refine ⟨rfl, ?_, ?_⟩
  · cases b <;> rfl
  · intro s d w
    cases b with
    | fails e => exact fun hcon => ProxyResult.noConfusion hcon
    | returns r => exact fun hcon => ProxyResult.noConfusion hcon

/-- C8: for every backend response whose content type contains
text/event-stream, the relayed client body is exactly the backend's
chunk sequence, in the same order and complete, and the outcome does not
depend on the filter policy flag, so the reasoning filter is never
applied to a stream. -/
theorem C8_stream_relayed_verbatim (fr : Bool) (r : BackendResponse)
    (h : strContains r.contentType "text/event-stream" = true) :
    handleBackend fr r = ProxyOutcome.streamed r.status r.chunks := by
  unfold handleBackend
  rw [if_pos h, stream_response_id]

/-- Witness for C8 at a concrete three-chunk stream with the filter
policy enabled. -/
theorem C8_witness :
    strContains wRespStream.contentType "text/event-stream" = true ∧
      handleBackend true wRespStream =
        ProxyOutcome.streamed wRespStream.status wRespStream.chunks :=
  ⟨by decide, C8_stream_relayed_verbatim true wRespStream (by decide)⟩

/-- C9 counterexample: the non-JSON branch returns the decoded text as
the content of a JSON response, so the wire body is the quoted JSON
string literal of the text, not the text itself: for backend text hello
the client receives a seven-byte body with quotation marks around it. -/
theorem C9_counterexample :
    wRespText.text = "hello" ∧
      wireBody (handleBackend false wRespText) = some "\"hello\"" ∧
      wireBody (handleBackend false wRespText) ≠ some wRespText.text :=
  ⟨rfl, by decide, by decide⟩

/-- C9 amended: for every buffered backend response that is neither a
stream nor JSON, the proxy wraps the decoded text body as the content of
a JSON response, so the body the client receives is the JSON string
serialization of that text (quoted, with escapes); the reasoning filter
is not applied to it under either policy flag. -/
theorem C9_amended_text_reencoded (fr : Bool) (r : BackendResponse)
    (h1 : strContains r.contentType "text/event-stream" = false)
    (h2 : strStartsWith r.contentType "application/json" = false) :
    handleBackend fr r = ProxyOutcome.jsonResponse r.status (JsonValue.str r.text) ∧
      wireBody (handleBackend fr r) = some (renderJson (JsonValue.str r.text)) := by
  have hmain : handleBackend fr r = ProxyOutcome.jsonResponse r.status (JsonValue.str r.text) := by
    unfold handleBackend
    rw [if_neg (by simp [h1]), if_neg (by simp [h2])]
  exact ⟨hmain, by rw [hmain]; rfl⟩

/-- Witness for C9 amended at the concrete plain-text response. -/
theorem C9_witness :
    strStartsWith wRespText.contentType "application/json" = false ∧
      (handleBackend true wRespText =
          ProxyOutcome.jsonResponse wRespText.status (JsonValue.str wRespText.text) ∧
        wireBody (handleBackend true wRespText) =
          some (renderJson (JsonValue.str wRespText.text))) :=
  ⟨by decide, C9_amended_text_reencoded true wRespText (by decide) (by decide)⟩

/-- C7: a backend response whose content type begins with
application/json but whose body fails to decode makes the json parse
raise, and the except clause around the outbound call only catches the
transport error class, so the exception escapes the handler: the client
receives the framework's generic 500, not the 502 with a descriptive
message that the specification demands. -/
theorem C7_decode_failure_uncaught :
    proxy ["k"] false (some "Bearer k") (BackendCall.returns wRespBadJson) =
      (true, ProxyResult.ok (ProxyOutcome.uncaughtException "json.decoder.JSONDecodeError")) ∧
      clientStatus (proxy ["k"] false (some "Bearer k")
        (BackendCall.returns wRespBadJson)).2 = 500 ∧
      clientStatus (proxy ["k"] false (some "Bearer k")
        (BackendCall.returns wRespBadJson)).2 ≠ 502 :=
  ⟨rfl, by decide, by decide⟩

theorem filterChoice_of_message_obj (f m : List (String × JsonValue))
    (hl : lookupField f "message" = some (JsonValue.obj m)) :
    filterChoice (JsonValue.obj f) =
      JsonValue.obj (setField f "message" (JsonValue.obj (filterMessageObj m))) := by
  simp [filterChoice, hl]

theorem filterChoice_of_not_message_obj (f : List (String × JsonValue))
    (hl : ∀ m, lookupField f "message" ≠ some (JsonValue.obj m)) :
    filterChoice (JsonValue.obj f) = JsonValue.obj f := by
  cases hx : lookupField f "message" with
  | none => simp [filterChoice, hx]
  | some mv =>
    cases mv with
    | obj m => exact absurd hx (hl m)
    | null => simp [filterChoice, hx]
    | bool b => simp [filterChoice, hx]
    | num n => simp [filterChoice, hx]
    | str s => simp [filterChoice, hx]
    | arr xs => simp [filterChoice, hx]

theorem filterChoice_of_not_obj (c : JsonValue) (h : ∀ f, c ≠ JsonValue.obj f) :
    filterChoice c = c := by
  cases c with
  | obj f => exact absurd rfl (h f)
  | null => rfl
  | bool b => rfl
  | num n => rfl
  | str s => rfl
  | arr xs => rfl

/-- C4: with the filter policy enabled and a buffered JSON body that is
an object carrying a choices sequence, the relayed JSON replaces each
choice by its filtered form, and under every relayed choice that is an
object holding a message object the message carries no reasoning key,
whatever type the original reasoning value had. -/
theorem C4_reasoning_removed (r : BackendResponse)
    (fields : List (String × JsonValue)) (cs : List JsonValue)
    (h1 : strContains r.contentType "text/event-stream" = false)
    (h2 : strStartsWith r.contentType "application/json" = true)
    (h3 : r.json = some (JsonValue.obj fields))
    (hch : lookupField fields "choices" = some (JsonValue.arr cs)) :
    handleBackend true r =
      ProxyOutcome.jsonResponse r.status
        (JsonValue.obj (setField fields "choices" (JsonValue.arr (cs.map filterChoice)))) ∧
      lookupField (setField fields "choices" (JsonValue.arr (cs.map filterChoice))) "choices" =
        some (JsonValue.arr (cs.map filterChoice)) ∧
      ∀ c ∈ cs, ∀ cf mf, filterChoice c = JsonValue.obj cf →
        lookupField cf "message" = some (JsonValue.obj mf) →
        lookupField mf "reasoning" = none := by
  refine ⟨?_, ?_, ?_⟩
  · unfold handleBackend
    rw [if_neg (by simp [h1]), if_pos h2, h3]
    have hf : filterResponse true (JsonValue.obj fields) =
        JsonValue.obj (setField fields "choices" (JsonValue.arr (cs.map filterChoice))) := by
      simp [filterResponse, hch]
    exact congrArg (ProxyOutcome.jsonResponse r.status) hf
  · rw [lookupField_setField_self, hch]
    rfl
  · intro c hc cf mf hcf hm
    by_cases hobj : ∃ f, c = JsonValue.obj f
    · obtain ⟨f, rfl⟩ := hobj
      by_cases hmsg : ∃ m, lookupField f "message" = some (JsonValue.obj m)
      · obtain ⟨m0, hl⟩ := hmsg
        rw [filterChoice_of_message_obj f m0 hl] at hcf
        injection hcf with hcf'
        subst hcf'
        rw [lookupField_setField_self, hl] at hm
        simp only [Option.map_some'] at hm
        injection hm with hm1
        injection hm1 with hm2
        rw [← hm2]
        exact filterMessageObj_no_reasoning m0
      · push_neg at hmsg
        rw [filterChoice_of_not_message_obj f hmsg] at hcf
        injection hcf with hcf'
        subst hcf'
        exact absurd hm (hmsg mf)
    · push_neg at hobj
      rw [filterChoice_of_not_obj c hobj] at hcf
      exact absurd hcf (hobj cf)

/-- Witness for C4 at the concrete chat-completion body whose message
holds a reasoning field of string type. -/
theorem C4_witness :
    strStartsWith wRespChat.contentType "application/json" = true ∧
      (handleBackend true wRespChat =
          ProxyOutcome.jsonResponse wRespChat.status
            (JsonValue.obj (setField wFieldsChat "choices"
              (JsonValue.arr (wChoicesChat.map filterChoice)))) ∧
        lookupField (setField wFieldsChat "choices"
            (JsonValue.arr (wChoicesChat.map filterChoice))) "choices" =
          some (JsonValue.arr (wChoicesChat.map filterChoice)) ∧
        ∀ c ∈ wChoicesChat, ∀ cf mf, filterChoice c = JsonValue.obj cf →
          lookupField cf "message" = some (JsonValue.obj mf) →
          lookupField mf "reasoning" = none) :=
  ⟨by decide, C4_reasoning_removed wRespChat wFieldsChat wChoicesChat
      (by decide) (by decide) rfl rfl⟩

/-- C10: for a buffered JSON response with the filter enabled, the
transformation touches at most the reasoning and content entries of
message objects inside the choices sequence: the status is the
backend's, every top-level field other than choices keeps its value, key
order is preserved, the number of choices is unchanged, inside a touched
choice only the message field changes and inside the message every key
other than reasoning and content keeps its value, and choices that are
not objects, or whose message is absent or not an object, are relayed
unchanged. -/
theorem C10_filter_frame (r : BackendResponse)
    (fields : List (String × JsonValue)) (cs : List JsonValue)
    (h1 : strContains r.contentType "text/event-stream" = false)
    (h2 : strStartsWith r.contentType "application/json" = true)
    (h3 : r.json = some (JsonValue.obj fields))
    (hch : lookupField fields "choices" = some (JsonValue.arr cs)) :
    handleBackend true r =
      ProxyOutcome.jsonResponse r.status
        (JsonValue.obj (setField fields "choices" (JsonValue.arr (cs.map filterChoice)))) ∧
      (∀ k, k ≠ "choices" →
        lookupField (setField fields "choices" (JsonValue.arr (cs.map filterChoice))) k =
          lookupField fields k) ∧
      (setField fields "choices" (JsonValue.arr (cs.map filterChoice))).map Prod.fst =
        fields.map Prod.fst ∧
      (cs.map filterChoice).length = cs.length ∧
      (∀ c ∈ cs, ∀ f m, c = JsonValue.obj f →
        lookupField f "message" = some (JsonValue.obj m) →
        filterChoice c =
          JsonValue.obj (setField f "message" (JsonValue.obj (filterMessageObj m))) ∧
        (∀ k, k ≠ "message" →
          lookupField (setField f "message" (JsonValue.obj (filterMessageObj m))) k =
            lookupField f k) ∧
        (∀ k, k ≠ "reasoning" → k ≠ "content" →
          lookupField (filterMessageObj m) k = lookupField m k)) ∧
      (∀ c ∈ cs, (∀ f, c ≠ JsonValue.obj f) → filterChoice c = c) ∧
      (∀ c ∈ cs, ∀ f, c = JsonValue.obj f →
        (∀ m, lookupField f "message" ≠ some (JsonValue.obj m)) → filterChoice c = c) := by
  refine ⟨?_, ?_, ?_, ?_, ?_, ?_, ?_⟩
  · unfold handleBackend
    rw [if_neg (by simp [h1]), if_pos h2, h3]
    have hf : filterResponse true (JsonValue.obj fields) =
        JsonValue.obj (setField fields "choices" (JsonValue.arr (cs.map filterChoice))) := by
      simp [filterResponse, hch]
    exact congrArg (ProxyOutcome.jsonResponse r.status) hf
  · intro k hk
    exact lookupField_setField_ne fields "choices" _ k hk
  · exact setField_keys fields "choices" _
  · exact List.length_map cs filterChoice
  · intro c _ f m hcf hm
    subst hcf
    refine ⟨filterChoice_of_message_obj f m hm, ?_, ?_⟩
    · intro k hk
      exact lookupField_setField_ne f "message" _ k hk
    · intro k hk1 hk2
      exact filterMessageObj_frame m k hk1 hk2
  · intro c _ h
    exact filterChoice_of_not_obj c h
  · intro c _ f hcf h
    subst hcf
    exact filterChoice_of_not_message_obj f h

/-- Witness for C10 at the concrete chat-completion body. -/
theorem C10_witness :
    strContains wRespChat.contentType "text/event-stream" = false ∧
      (handleBackend true wRespChat =
          ProxyOutcome.jsonResponse wRespChat.status
            (JsonValue.obj (setField wFieldsChat "choices"
              (JsonValue.arr (wChoicesChat.map filterChoice)))) ∧
        (∀ k, k ≠ "choices" →
          lookupField (setField wFieldsChat "choices"
              (JsonValue.arr (wChoicesChat.map filterChoice))) k =
            lookupField wFieldsChat k) ∧
        (setField wFieldsChat "choices"
            (JsonValue.arr (wChoicesChat.map filterChoice))).map Prod.fst =
          wFieldsChat.map Prod.fst ∧
        (wChoicesChat.map filterChoice).length = wChoicesChat.length ∧
        (∀ c ∈ wChoicesChat, ∀ f m, c = JsonValue.obj f →
          lookupField f "message" = some (JsonValue.obj m) →
          filterChoice c =
            JsonValue.obj (setField f "message" (JsonValue.obj (filterMessageObj m))) ∧
          (∀ k, k ≠ "message" →
            lookupField (setField f "message" (JsonValue.obj (filterMessageObj m))) k =
              lookupField f k) ∧
          (∀ k, k ≠ "reasoning" → k ≠ "content" →
            lookupField (filterMessageObj m) k = lookupField m k)) ∧
        (∀ c ∈ wChoicesChat, (∀ f, c ≠ JsonValue.obj f) → filterChoice c = c) ∧
        (∀ c ∈ wChoicesChat, ∀ f, c = JsonValue.obj f →
          (∀ m, lookupField f "message" ≠ some (JsonValue.obj m)) → filterChoice c = c)) :=
  ⟨by decide, C10_filter_frame wRespChat wFieldsChat wChoicesChat
      (by decide) (by decide) rfl rfl⟩

/-- C5: with the filter enabled, a content string made of a prefix with
no stray opening tag, a think-block whose inner part (newlines allowed)
contains no closing tag, whitespace after the closing tag, and a
remainder not starting with whitespace, is rewritten to the prefix
followed by the filtered remainder (so several blocks are removed in
turn), the final result being stripped of outer whitespace; in
particular the content consisting of a think-block followed by Hello
filters to Hello. -/
theorem C5_think_blocks_removed (pre inner ws rest : List Char)
    (hpre : ∀ b ∈ pre.tails, b ≠ [] →
      listIsPre openTagL (b ++ (openTagL ++ (inner ++ (closeTagL ++ (ws ++ rest))))) = false)
    (hinner : ∀ b ∈ inner.tails, b ≠ [] →
      listIsPre closeTagL (b ++ (closeTagL ++ (ws ++ rest))) = false)
    (hws : ws.all isPySpace = true)
    (hrest : rest.head?.all (fun c => !isPySpace c) = true) :
    stripThink (pre ++ (openTagL ++ (inner ++ (closeTagL ++ (ws ++ rest))))) =
      pre ++ stripThink rest ∧
    filterContentStr (String.mk (pre ++ (openTagL ++ (inner ++ (closeTagL ++ (ws ++ rest)))))) =
      String.mk (pyStrip (pre ++ stripThink rest)) ∧
    filterContentStr "<think>hidden</think>Hello" = "Hello" := by
  have hmain : stripThink (pre ++ (openTagL ++ (inner ++ (closeTagL ++ (ws ++ rest))))) =
      pre ++ stripThink rest := by
    rw [stripThink_copies pre _ hpre]
    congr 1
    rw [stripThink_open (inner ++ (closeTagL ++ (ws ++ rest))) (ws ++ rest)
        (findClose_through inner (ws ++ rest) hinner)]
    rw [dropWhile_append_all isPySpace ws rest hws, dropWhile_head_not isPySpace rest hrest]
  refine ⟨hmain, ?_, by decide⟩
  show String.mk (pyStrip (stripThink (pre ++ (openTagL ++
      (inner ++ (closeTagL ++ (ws ++ rest))))))) =
    String.mk (pyStrip (pre ++ stripThink rest))
  rw [hmain]

/-- Witness for C5 at a concrete content with a newline inside the block
and whitespace after the closing tag. -/
theorem C5_witness :
    stripThink (['a'] ++ (openTagL ++ (['b', '\n', 'c'] ++ (closeTagL ++ ([' '] ++ ['d']))))) =
      ['a'] ++ stripThink ['d'] ∧
    filterContentStr (String.mk (['a'] ++ (openTagL ++ (['b', '\n', 'c'] ++
        (closeTagL ++ ([' '] ++ ['d'])))))) =
      String.mk (pyStrip (['a'] ++ stripThink ['d'])) ∧
    filterContentStr "<think>hidden</think>Hello" = "Hello" :=
  C5_think_blocks_removed ['a'] ['b', '\n', 'c'] [' '] ['d']
    (by decide) (by decide) (by decide) (by decide)

/-- C6 counterexample: the content Hello surrounded by single spaces
contains no think-block, not even an opening tag, yet the relayed
content is stripped of the surrounding whitespace and is therefore not
byte-identical to the source. -/
theorem C6_counterexample :
    hasInfixL openTagL (" Hello ".data) = false ∧
      filterContentStr " Hello " = "Hello" ∧
      filterContentStr " Hello " ≠ " Hello " :=
  ⟨by decide, by decide, by decide⟩

/-- C6 amended: with the filter enabled, a message content containing no
opening think-tag is relayed as the source content trimmed of leading
and trailing whitespace (the strip is applied unconditionally), hence
byte-identical to the source exactly when the source carries no outer
whitespace. -/
theorem C6_no_block_strip_only (s : List Char)
    (h : ∀ b ∈ s.tails, b ≠ [] → listIsPre openTagL b = false) :
    filterContentStr (String.mk s) = String.mk (pyStrip s) ∧
      (pyStrip s = s → filterContentStr (String.mk s) = String.mk s) := by
  have hmain : filterContentStr (String.mk s) = String.mk (pyStrip s) := by
    show String.mk (pyStrip (stripThink s)) = String.mk (pyStrip s)
    rw [stripThink_id_of_no_open s h]
  exact ⟨hmain, fun hs => by rw [hmain, hs]⟩

/-- Witness for C6 amended at a concrete tag-free content. -/
theorem C6_witness :
    filterContentStr (String.mk ("Hi there".data)) = String.mk (pyStrip ("Hi there".data)) ∧
      (pyStrip ("Hi there".data) = "Hi there".data →
        filterContentStr (String.mk ("Hi there".data)) = String.mk ("Hi there".data)) :=
  C6_no_block_strip_only ("Hi there".data) (by decide)
